/-
Verification of the Game of Life simulator (Go, two program variants:
`main.go` and the configuration-file variant bundled in the README)
against its natural-language specification.

The Go code is shallowly embedded: the nested map `map[int64]map[int64]int`
(values only ever 0 or 1) is represented as a pair of finite sets — the set
of coordinates with an explicit entry, and the subset whose entry is 1
(alive).  Go `int64` values are embedded as `Int`; all coordinates the
program ever stores lie within the configured world bounds, where the Go
arithmetic (`coordX - 1`, `coordX + 1` guarded by the min/max tests) cannot
overflow, so the embedding is exact on reachable states.  Go map iteration
order is unspecified; the embedding iterates candidates in a fixed
lexicographic order, which is harmless because every per-coordinate action
commutes (proved where needed).
-/
import Mathlib

namespace GameOfLife

/-! ## World model (the global variables `worldMinX` … `flagWraparound`) -/

structure World where
  minX : Int
  maxX : Int
  minY : Int
  maxY : Int
  wraparound : Bool
deriving DecidableEq, Repr

/-- Result shape of Go's `getNeighborsX` / `getNeighborsY`:
`(coordLower, coordUpper, coordLowerExists, coordUpperExists)`. -/
structure AxisNeighbors where
  lower : Int
  upper : Int
  lowerExists : Bool
  upperExists : Bool
deriving DecidableEq, Repr

/-- `getNeighborsX` from `main.go`.  When an existence flag is false the Go
variable keeps its zero value, hence the `0`. -/
def getNeighborsX (w : World) (coordX : Int) : AxisNeighbors :=
  { lower := if coordX = w.minX then (if w.wraparound then w.maxX else 0) else coordX - 1
    lowerExists := if coordX = w.minX then w.wraparound else true
    upper := if coordX = w.maxX then (if w.wraparound then w.minX else 0) else coordX + 1
    upperExists := if coordX = w.maxX then w.wraparound else true }

/-- `getNeighborsY` from `main.go` (identical logic on the Y axis). -/
def getNeighborsY (w : World) (coordY : Int) : AxisNeighbors :=
  { lower := if coordY = w.minY then (if w.wraparound then w.maxY else 0) else coordY - 1
    lowerExists := if coordY = w.minY then w.wraparound else true
    upper := if coordY = w.maxY then (if w.wraparound then w.minY else 0) else coordY + 1
    upperExists := if coordY = w.maxY then w.wraparound else true }

/-! ## Rule sets (the configuration-file variant's `appNewLifeSpawn` /
`appExistingLifeRemain`; `main.go` hardcodes the defaults) -/

structure RuleSet where
  newLifeSpawn : List Int
  existingLifeRemain : List Int
deriving DecidableEq, Repr

/-- The defaults set in `init()`: `appNewLifeSpawn = []int{3}`,
`appExistingLifeRemain = []int{2, 3}`. -/
def defaultRules : RuleSet := ⟨[3], [2, 3]⟩

/-- The configuration-file variant's next-state decision: pick the list
according to `alive == 1`, then scan it for a matching neighbor count. -/
def decideNext (rules : RuleSet) (alive : Int) (neighborsAlive : Int) : Bool :=
  let neighborsCheck := if alive = 1 then rules.existingLifeRemain else rules.newLifeSpawn
  neighborsCheck.any (fun neighbors => neighborsAlive == neighbors)

/-- `main.go`'s hardcoded decision (lines 104–108):
`if neighborsAlive >= 2 && neighborsAlive <= 3 { if alive == 1 || neighborsAlive == 3 { add } }`. -/
def decideNextSimple (alive : Int) (neighborsAlive : Int) : Bool :=
  if 2 ≤ neighborsAlive ∧ neighborsAlive ≤ 3 then
    if alive = 1 ∨ neighborsAlive = 3 then true else false
  else false

/-! ## The organisms map

`map[int64]map[int64]int` with values in {0, 1}: `entries` is the set of
coordinates that have an explicit entry, `alive` those whose entry is 1.
In every state the Go program builds, `alive ⊆ entries`. -/

structure Organisms where
  entries : Finset (Int × Int)
  alive : Finset (Int × Int)
deriving DecidableEq

/-- `make(map[int64]map[int64]int)` -/
def emptyOrganisms : Organisms := ⟨∅, ∅⟩

/-- `hasLife`: present coordinates report their stored value, absent ones 0. -/
def hasLife (o : Organisms) (coordX coordY : Int) : Int :=
  if (coordX, coordY) ∈ o.entries then (if (coordX, coordY) ∈ o.alive then 1 else 0) else 0

/-- The slice `coordXs` built in `addOrganism`: the coordinate itself plus
whichever X-neighbors exist. -/
def coordXsList (w : World) (coordX : Int) : List Int :=
  let nx := getNeighborsX w coordX
  [coordX] ++ (if nx.lowerExists then [nx.lower] else []) ++ (if nx.upperExists then [nx.upper] else [])

/-- The slice `coordYs` built in `addOrganism`. -/
def coordYsList (w : World) (coordY : Int) : List Int :=
  let ny := getNeighborsY w coordY
  [coordY] ++ (if ny.lowerExists then [ny.lower] else []) ++ (if ny.upperExists then [ny.upper] else [])

/-- The Cartesian product the stubbing loop of `addOrganism` walks:
every `(tempCoordX, tempCoordY)` pair it touches. -/
def haloList (w : World) (coordX coordY : Int) : List (Int × Int) :=
  (coordXsList w coordX).flatMap (fun a => (coordYsList w coordY).map (fun b => (a, b)))

/-- `addOrganism`: stub every halo coordinate that is absent with value 0,
then set the coordinate itself to 1.  Stubbing never overwrites, so on the
set representation the entries grow by the halo and the alive set by the
coordinate itself. -/
def addOrganism (w : World) (o : Organisms) (coordX coordY : Int) : Organisms :=
  { entries := o.entries ∪ (haloList w coordX coordY).toFinset
    alive := o.alive ∪ {(coordX, coordY)} }

/-- The neighbor coordinates the tick loop probes with `hasLife`, in the
order the Go code probes them (guarded by the existence flags). -/
def neighborList (w : World) (coordX coordY : Int) : List (Int × Int) :=
  let nx := getNeighborsX w coordX
  let ny := getNeighborsY w coordY
  (if nx.lowerExists then
    [(nx.lower, coordY)] ++ (if ny.lowerExists then [(nx.lower, ny.lower)] else [])
      ++ (if ny.upperExists then [(nx.lower, ny.upper)] else [])
   else [])
  ++ (if nx.upperExists then
    [(nx.upper, coordY)] ++ (if ny.lowerExists then [(nx.upper, ny.lower)] else [])
      ++ (if ny.upperExists then [(nx.upper, ny.upper)] else [])
   else [])
  ++ (if ny.lowerExists then [(coordX, ny.lower)] else [])
  ++ (if ny.upperExists then [(coordX, ny.upper)] else [])

/-- The `neighborsAlive` accumulator of the tick loop: the sum of `hasLife`
over exactly the guarded probes, in program order. -/
def neighborsAlive (w : World) (o : Organisms) (coordX coordY : Int) : Int :=
  ((neighborList w coordX coordY).map (fun p => hasLife o p.1 p.2)).sum

/-! ## Candidate iteration and the tick

Go iterates the outer map by X key and the inner map by Y key in
unspecified order; the embedding fixes a lexicographic order.  Every
iteration step commutes, so the choice is immaterial. -/

def lexLe (p q : Int × Int) : Prop := p.1 < q.1 ∨ (p.1 = q.1 ∧ p.2 ≤ q.2)

instance : DecidableRel lexLe := fun p q => by unfold lexLe; infer_instance

instance : IsTrans (Int × Int) lexLe :=
  ⟨by intro a b c h1 h2; unfold lexLe at *; omega⟩

instance : IsAntisymm (Int × Int) lexLe :=
  ⟨by intro a b h1 h2; unfold lexLe at *; rw [Prod.ext_iff]; omega⟩

instance : IsTotal (Int × Int) lexLe :=
  ⟨by intro a b; unfold lexLe; omega⟩

/-- The coordinates the tick loop visits: all explicit entries. -/
def candidateList (o : Organisms) : List (Int × Int) := o.entries.sort lexLe

/-- One generation step (`main` loop body, lines 59–112): visit every
candidate, count its live neighbors in the *current* map, decide, and
`addOrganism` the survivors/births into the fresh map.  The loop variable
`alive` is the candidate's stored value, i.e. `hasLife` of a present key. -/
def tickOrganisms (rules : RuleSet) (w : World) (o : Organisms) : Organisms :=
  (candidateList o).foldl
    (fun acc c =>
      if decideNext rules (hasLife o c.1 c.2) (neighborsAlive w o c.1 c.2) then
        addOrganism w acc c.1 c.2
      else acc)
    emptyOrganisms

/-- Seeding from an already-parsed coordinate list: `seedLife`'s loop is
`addOrganism` per record. -/
def seedOrganisms (w : World) (cs : List (Int × Int)) : Organisms :=
  cs.foldl (fun o c => addOrganism w o c.1 c.2) emptyOrganisms

/-- The specification-level step: the transition rule evaluated directly at
an arbitrary coordinate (what a naive whole-world step computes there). -/
def naiveStepAlive (rules : RuleSet) (w : World) (o : Organisms) (c : Int × Int) : Bool :=
  decideNext rules (hasLife o c.1 c.2) (neighborsAlive w o c.1 c.2)

/-- Coordinate within the inclusive world bounds. -/
def InWorld (w : World) (p : Int × Int) : Prop :=
  w.minX ≤ p.1 ∧ p.1 ≤ w.maxX ∧ w.minY ≤ p.2 ∧ p.2 ≤ w.maxY

instance (w : World) (p : Int × Int) : Decidable (InWorld w p) := by
  unfold InWorld; infer_instance

/-- The halo invariant: every live coordinate's existing neighbors have an
explicit entry (alive or tracked-dead). -/
def HaloInvariant (w : World) (o : Organisms) : Prop :=
  ∀ p ∈ o.alive, ∀ q ∈ neighborList w p.1 p.2, q ∈ o.entries

instance (w : World) (o : Organisms) : Decidable (HaloInvariant w o) := by
  unfold HaloInvariant; infer_instance

/-! ## Serialization (`outputOrganisms`, `getSortedCoordXs`, `getSortedCoordYs`)

`fmt.Fprintf(file, "%d %d\n", …)` renders base-10 integers; `natDigits` /
`intToDecimal` are that standard decimal rendering. -/

/-- Decimal digit character for `d < 10`. -/
def digitChar (d : Nat) : Char :=
  if d = 0 then '0' else if d = 1 then '1' else if d = 2 then '2' else if d = 3 then '3'
  else if d = 4 then '4' else if d = 5 then '5' else if d = 6 then '6' else if d = 7 then '7'
  else if d = 8 then '8' else '9'

/-- Base-10 digit list of a natural number, most significant first. -/
def natDigits (n : Nat) : List Char :=
  if _h : n < 10 then [digitChar n]
  else natDigits (n / 10) ++ [digitChar (n % 10)]
decreasing_by exact Nat.div_lt_self (by omega) (by omega)

/-- Character list of the standard decimal rendering of an `int64` value. -/
def intDigits (x : Int) : List Char :=
  if x < 0 then '-' :: natDigits x.natAbs else natDigits x.toNat

/-- Standard decimal rendering of an `int64` value (what `%d` prints). -/
def intToDecimal (x : Int) : String := String.mk (intDigits x)

/-- One output line `"<x> <y>"`. -/
def lineFor (x y : Int) : String := intToDecimal x ++ " " ++ intToDecimal y

/-- Sorted first components of a coordinate set (`getSortedCoordXs` applied
to the outer map keys). -/
def sortedFsts (s : Finset (Int × Int)) : List Int :=
  (s.image Prod.fst).sort (· ≤ ·)

/-- Sorted second components at a given X (`getSortedCoordYs` applied to the
inner map `organisms[coordX]`). -/
def sortedSndsAt (s : Finset (Int × Int)) (x : Int) : List Int :=
  ((s.filter (fun p => p.1 = x)).image Prod.snd).sort (· ≤ ·)

def getSortedCoordXs (o : Organisms) : List Int := sortedFsts o.entries

def getSortedCoordYs (o : Organisms) (coordX : Int) : List Int := sortedSndsAt o.entries coordX

/-- `outputOrganisms`: header, then for every outer key in ascending order
and every inner key in ascending order, a line when the stored value is 1. -/
def outputOrganisms (o : Organisms) : List String :=
  "#Life 1.06" :: (getSortedCoordXs o).flatMap (fun coordX =>
    (getSortedCoordYs o coordX).filterMap (fun coordY =>
      if (coordX, coordY) ∈ o.alive then some (lineFor coordX coordY) else none))

/-- The coordinates `outputOrganisms` emits, in emission order. -/
def emittedCoords (o : Organisms) : List (Int × Int) :=
  (getSortedCoordXs o).flatMap (fun coordX =>
    (getSortedCoordYs o coordX).filterMap (fun coordY =>
      if (coordX, coordY) ∈ o.alive then some (coordX, coordY) else none))

/-- The alive coordinates sorted by ascending X then ascending Y — the
canonical order the serialization contract describes. -/
def sortedAliveCoords (o : Organisms) : List (Int × Int) :=
  (sortedFsts o.alive).flatMap (fun x => (sortedSndsAt o.alive x).map (fun y => (x, y)))

/-- Strict lexicographic order on coordinates. -/
def lexLt (p q : Int × Int) : Prop := p.1 < q.1 ∨ (p.1 = q.1 ∧ p.2 < q.2)

instance : DecidableRel lexLt := fun p q => by unfold lexLt; infer_instance

instance : IsAntisymm (Int × Int) lexLt :=
  ⟨by intro a b h1 h2; rw [Prod.ext_iff]; unfold lexLt at *; omega⟩

/-! ## Seed-record parsing (`seedLife`)

Go operates on the line's bytes; seed records are ASCII, so the embedding
works on the character list.  `strings.Split(s, ",")` with a one-character
separator is `splitOnChar ','`; `strings.TrimSpace` on ASCII is
`trimSpace`; `strconv.ParseInt(s, 10, 64)` is `parseGoInt` (sign, digits,
64-bit range check — out-of-range is an error the caller treats as fatal). -/

def isDigitChar (c : Char) : Bool := '0' ≤ c && c ≤ '9'

/-- Numeric value of a digit string (left fold, as positional notation). -/
def decimalValue (l : List Char) : Nat :=
  l.foldl (fun a c => 10 * a + (c.toNat - 48)) 0

/-- `strconv.ParseInt(s, 10, 64)`: optional sign, one or more digits, value
within the `int64` range; anything else is an error (`none`). -/
def parseGoInt (cs : List Char) : Option Int :=
  if cs = [] then none
  else if cs.headD ' ' = '-' ∨ cs.headD ' ' = '+' then
    (if cs.tail = [] then none
     else if cs.tail.all isDigitChar then
       (if cs.headD ' ' = '-' then
         (if -(2 ^ 63) ≤ -(decimalValue cs.tail : Int) ∧
             -(decimalValue cs.tail : Int) ≤ 2 ^ 63 - 1
          then some (-(decimalValue cs.tail : Int)) else none)
        else
         (if -(2 ^ 63) ≤ (decimalValue cs.tail : Int) ∧
             (decimalValue cs.tail : Int) ≤ 2 ^ 63 - 1
          then some (decimalValue cs.tail) else none))
     else none)
  else
    (if cs.all isDigitChar then
       (if -(2 ^ 63) ≤ (decimalValue cs : Int) ∧ (decimalValue cs : Int) ≤ 2 ^ 63 - 1
        then some (decimalValue cs) else none)
     else none)

/-- `strings.TrimSpace` restricted to ASCII whitespace. -/
def trimSpace (l : List Char) : List Char :=
  ((l.dropWhile Char.isWhitespace).reverse.dropWhile Char.isWhitespace).reverse

/-- `strings.Split` with a single-character separator. -/
def splitOnChar (sep : Char) : List Char → List (List Char)
  | [] => [[]]
  | c :: rest =>
    if c = sep then [] :: splitOnChar sep rest
    else
      match splitOnChar sep rest with
      | [] => [[c]]
      | h :: t => (c :: h) :: t

/-- Outcome of processing one seed record: parsed coordinates, a controlled
`log.Fatal`, or an uncontrolled runtime out-of-range access. -/
inductive RecordResult where
  | ok (coordX coordY : Int)
  | fatal (msg : String)
  | oob (msg : String)
deriving DecidableEq, Repr

/-- The body of `seedLife`'s scanner loop for one line.
`lineLength := len(line) - 1`; `line[0]` on an empty line and
`coordinates[1]` on a comma-less record are out-of-range accesses. -/
def processRecord (w : World) (line : String) : RecordResult :=
  if line.toList = [] then .oob "index out of range: line[0] on an empty line"
  else if line.toList.headD ' ' ≠ '(' then .fatal "Error reading left parenthesis"
  else if line.toList.getLastD ' ' ≠ ')' then .fatal "Error reading right parenthesis"
  else
    let coordinates := splitOnChar ',' (line.toList.drop 1).dropLast
    match parseGoInt (trimSpace (coordinates.headD [])) with
      | none => .fatal "Unable to parse X-coordinate integer"
      | some coordX =>
        match coordinates[1]? with
        | none => .oob "index out of range: coordinates[1] on a record with no comma"
        | some ystr =>
          match parseGoInt (trimSpace ystr) with
          | none => .fatal "Unable to parse Y-coordinate integer"
          | some coordY =>
            if coordX < w.minX then .fatal "X-coordinate outside the world minimum bounds"
            else if coordX > w.maxX then .fatal "X-coordinate outside the world maximum bounds"
            else if coordY < w.minY then .fatal "Y-coordinate outside the world minimum bounds"
            else if coordY > w.maxY then .fatal "Y-coordinate outside the world maximum bounds"
            else .ok coordX coordY

/-- `seedLife` over a list of input lines: process each record in order,
aborting on the first fatal error or runtime panic. -/
def seedLife (w : World) (lines : List String) : Except String Organisms :=
  lines.foldlM
    (fun o line =>
      match processRecord w line with
      | .ok x y => .ok (addOrganism w o x y)
      | .fatal m => .error m
      | .oob m => .error ("runtime error: " ++ m))
    emptyOrganisms

/-- The world `init()` configures by default: the full signed 64-bit range
with wraparound on (`main.go`, lines 42–43). -/
def defaultWorld : World := ⟨-(2 ^ 63), 2 ^ 63 - 1, -(2 ^ 63), 2 ^ 63 - 1, true⟩

/-- A value representable as a Go `int64`. -/
def int64Range (n : Int) : Prop := -(2 ^ 63) ≤ n ∧ n ≤ 2 ^ 63 - 1

instance (n : Int) : Decidable (int64Range n) := by unfold int64Range; infer_instance

/-- A coordinate reformatted as a seed record `"(x,y)"`. -/
def recordOf (p : Int × Int) : String :=
  String.mk ('(' :: intDigits p.1 ++ ',' :: intDigits p.2 ++ [')'])

/-- Every alive coordinate of a generation as a seed record, in
serialization order. -/
def aliveRecords (o : Organisms) : List String := (sortedAliveCoords o).map recordOf

/-! ## Bootstrap / configuration resolution -/

/-- `main.go`'s `bootstrap` (ticks check, then world-dimension parsing; the
output-directory plumbing is omitted as pure I/O).  It contains **no**
`min < max` validation. -/
def bootstrapSimple (ticks : Nat) (worldDims : String) : Except String (Int × Int × Int × Int) :=
  if ticks < 1 then .error "Number of ticks must be greater than 0" else
  let parts := splitOnChar ';' worldDims.toList
  if parts.length ≠ 2 then .error "Incorrect number of dimensions in world" else
  let partsX := splitOnChar ':' (parts.headD [])
  if partsX.length ≠ 2 then .error "Incorrect number of directions in X dimension" else
  let partsY := splitOnChar ':' (parts.getD 1 [])
  if partsY.length ≠ 2 then .error "Incorrect number of directions in X dimension" else
  match parseGoInt (trimSpace (partsX.headD [])) with
  | none => .error "Unable to parse world X dimension minimum"
  | some worldMinX =>
  match parseGoInt (trimSpace (partsX.getD 1 [])) with
  | none => .error "Unable to parse world X dimension maximum"
  | some worldMaxX =>
  match parseGoInt (trimSpace (partsY.headD [])) with
  | none => .error "Unable to parse world Y dimension minimum"
  | some worldMinY =>
  match parseGoInt (trimSpace (partsY.getD 1 [])) with
  | none => .error "Unable to parse world Y dimension maximum"
  | some worldMaxY =>
  .ok (worldMinX, worldMaxX, worldMinY, worldMaxY)

/-- The configuration-file variant's `bootstrap` (README, lines 425–462):
ticks check, then the world-dimensions sanity check.  Directory plumbing
omitted as pure I/O. -/
def bootstrapAdvanced (appTicks : Nat) (appWorldMinX appWorldMaxX appWorldMinY appWorldMaxY : Int) :
    Except String Unit :=
  if appTicks < 1 then .error "Bootstrap error: Number of ticks must be greater than 0" else
  if appWorldMinX ≥ appWorldMaxX then
    .error "Bootstrap error: World X dimension minimum must be less than world X dimension maximum"
  else if appWorldMinY ≥ appWorldMaxY then
    .error "Bootstrap error: World Y dimension minimum must be less than world Y dimension maximum"
  else .ok ()

/-- `main.go`: `flag.BoolVar(&flagWraparound, "wraparound", true, …)` —
the simple variant's flag default. -/
def flagWraparoundDefault : Bool := true

/-- Configuration-file variant, `init()`: `appWraparound = true`. -/
def initAppWraparound : Bool := true

/-- Configuration-file variant, `processConfigurationFile`:
`if cf.DisableWraparound { appWraparound = false }`. -/
def processConfigurationFileWraparound (app : Bool) (cfDisableWraparound : Bool) : Bool :=
  if cfDisableWraparound then false else app

/-- Configuration-file variant, `processConfigurationCli` (lines 334–336):
`if !flagDisableWraparound { appWraparound = false }`. -/
def processConfigurationCliWraparound (app : Bool) (flagDisableWraparound : Bool) : Bool :=
  if !flagDisableWraparound then false else app

/-- The value of `appWraparound` after the whole setup sequence, as a
function of the configuration file's `disable_wraparound` and the `-nowrap`
CLI flag. -/
def appWraparoundResolved (cfDisableWraparound flagDisableWraparound : Bool) : Bool :=
  processConfigurationCliWraparound
    (processConfigurationFileWraparound initAppWraparound cfDisableWraparound)
    flagDisableWraparound

/-- The X-axis neighbor relation induced by `getNeighborsX`: `q` is a
resolved, existing lower or upper neighbor of `coordX`. -/
def isNeighborX (w : World) (coordX q : Int) : Prop :=
  ((getNeighborsX w coordX).lowerExists = true ∧ q = (getNeighborsX w coordX).lower) ∨
  ((getNeighborsX w coordX).upperExists = true ∧ q = (getNeighborsX w coordX).upper)

/-- The Y-axis neighbor relation induced by `getNeighborsY`. -/
def isNeighborY (w : World) (coordY q : Int) : Prop :=
  ((getNeighborsY w coordY).lowerExists = true ∧ q = (getNeighborsY w coordY).lower) ∨
  ((getNeighborsY w coordY).upperExists = true ∧ q = (getNeighborsY w coordY).upper)

/-- The 2-D neighbor relation probed by the tick loop. -/
def isNeighbor (w : World) (c p : Int × Int) : Prop :=
  (isNeighborX w c.1 p.1 ∧ (p.2 = c.2 ∨ isNeighborY w c.2 p.2)) ∨
  (p.1 = c.1 ∧ isNeighborY w c.2 p.2)

/-- The per-candidate condition of the tick loop. -/
def tickCond (rules : RuleSet) (w : World) (o : Organisms) (c : Int × Int) : Bool :=
  decideNext rules (hasLife o c.1 c.2) (neighborsAlive w o c.1 c.2)

/-! ## Concrete test fixtures (small world, blinker seed) -/

def testWorld : World := ⟨0, 9, 0, 9, false⟩

def testOrganisms : Organisms := seedOrganisms testWorld [(1, 2), (2, 2), (3, 2)]

def twoWorld : World := ⟨0, 1, -10, 10, true⟩

def twoOrganisms : Organisms := addOrganism twoWorld emptyOrganisms 1 5

/-! ## Lemmas: membership in guarded lists -/

lemma mem_ite_nil {α : Type} {c : Prop} [Decidable c] {l : List α} {p : α} :
    p ∈ (if c then l else []) ↔ c ∧ p ∈ l := by
  split <;> simp_all

lemma isNeighborX_symm (w : World) {a b : Int}
    (ha1 : w.minX ≤ a) (ha2 : a ≤ w.maxX) (hb1 : w.minX ≤ b) (hb2 : b ≤ w.maxX) :
    isNeighborX w a b ↔ isNeighborX w b a := by
  unfold isNeighborX getNeighborsX
  simp only
  split_ifs <;> simp_all <;> omega

lemma isNeighborY_symm (w : World) {a b : Int}
    (ha1 : w.minY ≤ a) (ha2 : a ≤ w.maxY) (hb1 : w.minY ≤ b) (hb2 : b ≤ w.maxY) :
    isNeighborY w a b ↔ isNeighborY w b a := by
  unfold isNeighborY getNeighborsY
  simp only
  split_ifs <;> simp_all <;> omega

set_option maxHeartbeats 1600000 in
lemma mem_neighborList {w : World} {x y : Int} {p : Int × Int} :
    p ∈ neighborList w x y ↔ isNeighbor w (x, y) p := by
  rcases p with ⟨px, py⟩
  simp only [neighborList, isNeighbor, isNeighborX, isNeighborY]
  cases hle : (getNeighborsX w x).lowerExists <;> cases hre : (getNeighborsX w x).upperExists <;>
    cases hbe : (getNeighborsY w y).lowerExists <;> cases hte : (getNeighborsY w y).upperExists <;>
      simp only [hle, hre, hbe, hte, List.mem_append, mem_ite_nil, List.mem_cons,
        List.mem_singleton, List.not_mem_nil, or_false, false_and, true_and, and_false,
        and_true, Prod.mk.injEq, Bool.false_eq_true] <;>
      tauto

lemma isNeighbor_symm (w : World) {c p : Int × Int}
    (hc : InWorld w c) (hp : InWorld w p) :
    isNeighbor w c p ↔ isNeighbor w p c := by
  obtain ⟨hc1, hc2, hc3, hc4⟩ := hc
  obtain ⟨hp1, hp2, hp3, hp4⟩ := hp
  unfold isNeighbor
  rw [isNeighborX_symm w hc1 hc2 hp1 hp2, isNeighborY_symm w hc3 hc4 hp3 hp4]
  constructor <;> rintro (⟨h1, (h2 | h2)⟩ | ⟨h1, h2⟩) <;> first
    | exact Or.inl ⟨h1, Or.inl h2.symm⟩
    | tauto

lemma mem_coordXsList {w : World} {x a : Int} :
    a ∈ coordXsList w x ↔ a = x ∨ isNeighborX w x a := by
  unfold coordXsList isNeighborX
  simp only [List.mem_append, mem_ite_nil, List.mem_singleton]
  tauto

lemma mem_coordYsList {w : World} {y b : Int} :
    b ∈ coordYsList w y ↔ b = y ∨ isNeighborY w y b := by
  unfold coordYsList isNeighborY
  simp only [List.mem_append, mem_ite_nil, List.mem_singleton]
  tauto

lemma mem_haloList {w : World} {x y : Int} {p : Int × Int} :
    p ∈ haloList w x y ↔ (p.1 = x ∨ isNeighborX w x p.1) ∧ (p.2 = y ∨ isNeighborY w y p.2) := by
  unfold haloList
  simp only [List.mem_flatMap, List.mem_map]
  constructor
  · rintro ⟨a, ha, b, hb, rfl⟩
    exact ⟨mem_coordXsList.mp ha, mem_coordYsList.mp hb⟩
  · rintro ⟨h1, h2⟩
    exact ⟨p.1, mem_coordXsList.mpr h1, p.2, mem_coordYsList.mpr h2, rfl⟩

lemma neighborList_subset_haloList {w : World} {x y : Int} {p : Int × Int}
    (h : p ∈ neighborList w x y) : p ∈ haloList w x y := by
  rw [mem_neighborList] at h
  rw [mem_haloList]
  unfold isNeighbor at h
  tauto

/-! ## Lemmas: folds of `addOrganism` -/

lemma alive_addOrganism (w : World) (o : Organisms) (x y : Int) :
    (addOrganism w o x y).alive = o.alive ∪ {(x, y)} := rfl

lemma entries_addOrganism (w : World) (o : Organisms) (x y : Int) :
    (addOrganism w o x y).entries = o.entries ∪ (haloList w x y).toFinset := rfl

lemma mem_alive_foldAddIf (w : World) (g : Int × Int → Bool) (l : List (Int × Int))
    (acc : Organisms) (p : Int × Int) :
    p ∈ (l.foldl (fun o c => if g c then addOrganism w o c.1 c.2 else o) acc).alive ↔
      p ∈ acc.alive ∨ (p ∈ l ∧ g p = true) := by
  induction l generalizing acc with
  | nil => simp
  | cons c l ih =>
    simp only [List.foldl_cons, ih, List.mem_cons]
    by_cases hg : g c = true
    · simp only [hg, if_pos]
      rw [alive_addOrganism]
      simp only [Finset.mem_union, Finset.mem_singleton]
      constructor
      · rintro ((h | h) | h)
        · tauto
        · subst h; tauto
        · tauto
      · rintro (h | ⟨(h | h), h2⟩)
        · tauto
        · subst h; tauto
        · tauto
    · simp only [if_neg hg]
      constructor
      · rintro (h | h)
        · tauto
        · tauto
      · rintro (h | ⟨(h | h), h2⟩)
        · tauto
        · subst h; simp_all
        · tauto

lemma mem_entries_foldAddIf (w : World) (g : Int × Int → Bool) (l : List (Int × Int))
    (acc : Organisms) (p : Int × Int) :
    p ∈ (l.foldl (fun o c => if g c then addOrganism w o c.1 c.2 else o) acc).entries ↔
      p ∈ acc.entries ∨ ∃ c ∈ l, g c = true ∧ p ∈ haloList w c.1 c.2 := by
  induction l generalizing acc with
  | nil => simp
  | cons c l ih =>
    simp only [List.foldl_cons, ih, List.mem_cons]
    by_cases hg : g c = true
    · simp only [hg, if_pos]
      rw [entries_addOrganism]
      simp only [Finset.mem_union, List.mem_toFinset]
      constructor
      · rintro ((h | h) | ⟨d, hd, h1, h2⟩)
        · tauto
        · exact Or.inr ⟨c, Or.inl rfl, hg, h⟩
        · exact Or.inr ⟨d, Or.inr hd, h1, h2⟩
      · rintro (h | ⟨d, (hd | hd), h1, h2⟩)
        · tauto
        · subst hd; tauto
        · exact Or.inr ⟨d, hd, h1, h2⟩
    · simp only [if_neg hg]
      constructor
      · rintro (h | ⟨d, hd, h1, h2⟩)
        · tauto
        · exact Or.inr ⟨d, Or.inr hd, h1, h2⟩
      · rintro (h | ⟨d, (hd | hd), h1, h2⟩)
        · tauto
        · subst hd; simp_all
        · exact Or.inr ⟨d, hd, h1, h2⟩

lemma seedOrganisms_eq_foldAddIf (w : World) (cs : List (Int × Int)) :
    seedOrganisms w cs =
      cs.foldl (fun o c => if (fun _ => true) c then addOrganism w o c.1 c.2 else o)
        emptyOrganisms := by
  unfold seedOrganisms
  congr 1

lemma mem_alive_seedOrganisms {w : World} {cs : List (Int × Int)} {p : Int × Int} :
    p ∈ (seedOrganisms w cs).alive ↔ p ∈ cs := by
  rw [seedOrganisms_eq_foldAddIf, mem_alive_foldAddIf]
  simp [emptyOrganisms]

lemma mem_entries_seedOrganisms {w : World} {cs : List (Int × Int)} {p : Int × Int} :
    p ∈ (seedOrganisms w cs).entries ↔ ∃ c ∈ cs, p ∈ haloList w c.1 c.2 := by
  rw [seedOrganisms_eq_foldAddIf, mem_entries_foldAddIf]
  simp [emptyOrganisms]

/-! ## Lemmas: the tick -/

lemma mem_candidateList {o : Organisms} {p : Int × Int} :
    p ∈ candidateList o ↔ p ∈ o.entries :=
  Finset.mem_sort lexLe

lemma tickOrganisms_eq_foldAddIf (rules : RuleSet) (w : World) (o : Organisms) :
    tickOrganisms rules w o =
      (candidateList o).foldl
        (fun acc c => if tickCond rules w o c then addOrganism w acc c.1 c.2 else acc)
        emptyOrganisms := rfl

lemma mem_alive_tick {rules : RuleSet} {w : World} {o : Organisms} {p : Int × Int} :
    p ∈ (tickOrganisms rules w o).alive ↔ p ∈ o.entries ∧ tickCond rules w o p = true := by
  rw [tickOrganisms_eq_foldAddIf, mem_alive_foldAddIf, mem_candidateList]
  simp [emptyOrganisms]

lemma mem_entries_tick {rules : RuleSet} {w : World} {o : Organisms} {p : Int × Int} :
    p ∈ (tickOrganisms rules w o).entries ↔
      ∃ c ∈ o.entries, tickCond rules w o c = true ∧ p ∈ haloList w c.1 c.2 := by
  rw [tickOrganisms_eq_foldAddIf, mem_entries_foldAddIf]
  simp only [emptyOrganisms, Finset.not_mem_empty, false_or]
  constructor
  · rintro ⟨c, hc, h⟩; exact ⟨c, mem_candidateList.mp hc, h⟩
  · rintro ⟨c, hc, h⟩; exact ⟨c, mem_candidateList.mpr hc, h⟩

lemma decideNext_eq_true {rules : RuleSet} {a n : Int} :
    decideNext rules a n = true ↔
      (a = 1 ∧ n ∈ rules.existingLifeRemain) ∨ (a ≠ 1 ∧ n ∈ rules.newLifeSpawn) := by
  by_cases h : a = 1 <;>
    simp only [decideNext, h, if_true, if_false, List.any_eq_true, beq_iff_eq,
      ne_eq, not_true_eq_false, false_and, or_false, true_and, not_false_eq_true,
      and_false, false_or] <;>
    exact ⟨fun ⟨x, hx, e⟩ => e ▸ hx, fun hm => ⟨n, hm, rfl⟩⟩

lemma hasLife_of_mem_entries {o : Organisms} {x y : Int} (h : (x, y) ∈ o.entries) :
    hasLife o x y = if (x, y) ∈ o.alive then 1 else 0 := by
  unfold hasLife
  rw [if_pos h]

lemma hasLife_of_not_mem_entries {o : Organisms} {x y : Int} (h : (x, y) ∉ o.entries) :
    hasLife o x y = 0 := by
  unfold hasLife
  rw [if_neg h]

lemma hasLife_eq_one {o : Organisms} {x y : Int} (h : hasLife o x y = 1) :
    (x, y) ∈ o.entries ∧ (x, y) ∈ o.alive := by
  unfold hasLife at h
  by_cases h1 : (x, y) ∈ o.entries <;> by_cases h2 : (x, y) ∈ o.alive <;> simp_all

lemma hasLife_zero_or_one (o : Organisms) (x y : Int) :
    hasLife o x y = 0 ∨ hasLife o x y = 1 := by
  unfold hasLife
  split_ifs <;> simp

/-- Outside the candidate set, under the halo invariant every probed
neighbor is dead, so the neighbor count is zero. -/
lemma neighborsAlive_eq_zero_of_not_mem_entries {w : World} {o : Organisms} {c : Int × Int}
    (hinv : HaloInvariant w o)
    (hworld : ∀ p ∈ o.entries, InWorld w p) (hc : InWorld w c)
    (hce : c ∉ o.entries) :
    neighborsAlive w o c.1 c.2 = 0 := by
  unfold neighborsAlive
  apply List.sum_eq_zero
  intro v hv
  rw [List.mem_map] at hv
  obtain ⟨p, hp, rfl⟩ := hv
  rcases hasLife_zero_or_one o p.1 p.2 with h0 | h1
  · exact h0
  · exfalso
    obtain ⟨hpe, hpa⟩ := hasLife_eq_one h1
    have hpw : InWorld w p := hworld _ hpe
    have hnb : isNeighbor w c p := by
      have := mem_neighborList (w := w) (x := c.1) (y := c.2) (p := p)
      simpa using this.mp hp
    have hnb2 : isNeighbor w p c := (isNeighbor_symm w hc hpw).mp hnb
    have hcmem : c ∈ neighborList w p.1 p.2 := by
      have := mem_neighborList (w := w) (x := p.1) (y := p.2) (p := c)
      simpa using this.mpr hnb2
    exact hce (hinv p hpa c hcmem)

/-! ## Claim theorems -/

/-- C1: for every coordinate in the current generation's candidate set, the
cell is alive in the next generation iff (currently alive and its
live-neighbor count is in the survive set) or (currently dead and the count
is in the birth set); the defaults are birth `[3]`, survive `[2, 3]`, and
`main.go`'s hardcoded decision coincides with the default rules. -/
theorem claim1_next_state_rule (rules : RuleSet) (w : World) (o : Organisms)
    (c : Int × Int) (hc : c ∈ o.entries) :
    (c ∈ (tickOrganisms rules w o).alive ↔
      ((c ∈ o.alive ∧ neighborsAlive w o c.1 c.2 ∈ rules.existingLifeRemain) ∨
       (c ∉ o.alive ∧ neighborsAlive w o c.1 c.2 ∈ rules.newLifeSpawn))) ∧
    defaultRules.newLifeSpawn = [3] ∧ defaultRules.existingLifeRemain = [2, 3] ∧
    (∀ a n : Int, decideNextSimple a n = decideNext defaultRules a n) := by
  refine ⟨?_, rfl, rfl, ?_⟩
  · rw [mem_alive_tick]
    unfold tickCond
    rw [decideNext_eq_true]
    have he : (c.1, c.2) ∈ o.entries := by simpa using hc
    rw [hasLife_of_mem_entries he]
    by_cases ha : c ∈ o.alive
    · have ha' : (c.1, c.2) ∈ o.alive := by simpa using ha
      simp [hc, ha, ha']
    · have ha' : (c.1, c.2) ∉ o.alive := by simpa using ha
      simp [hc, ha, ha']
  · intro a n
    simp only [decideNextSimple, decideNext, defaultRules, List.any_cons, List.any_nil,
      Bool.or_false]
    split_ifs <;> simp_all [beq_iff_eq, Bool.or_eq_true] <;> omega

/-- C1 witness: the blinker's center cell survives, as the rule predicts. -/
theorem claim1_next_state_rule_witness :
    ((2, 2) ∈ (tickOrganisms defaultRules testWorld testOrganisms).alive ↔
      (((2, 2) ∈ testOrganisms.alive ∧
          neighborsAlive testWorld testOrganisms 2 2 ∈ defaultRules.existingLifeRemain) ∨
       ((2, 2) ∉ testOrganisms.alive ∧
          neighborsAlive testWorld testOrganisms 2 2 ∈ defaultRules.newLifeSpawn))) ∧
    defaultRules.newLifeSpawn = [3] ∧ defaultRules.existingLifeRemain = [2, 3] ∧
    (∀ a n : Int, decideNextSimple a n = decideNext defaultRules a n) :=
  claim1_next_state_rule defaultRules testWorld testOrganisms (2, 2) (by decide)

/-- C2: axis neighbor resolution — at the minimum the lower neighbor is the
maximum and exists exactly when wraparound is on, symmetrically at the
maximum; elsewhere lower/upper are the adjacent coordinates and always
exist.  With wraparound off, a cell at `(minX, y)` never probes any
coordinate with `x < minX`, and the corner `(minX, minY)` has at most 3
candidate neighbors. -/
theorem claim2_axis_resolution (w : World) :
    (∀ c : Int, w.minX ≤ c → c ≤ w.maxX →
      ((c = w.minX → (getNeighborsX w c).lowerExists = w.wraparound ∧
          (w.wraparound = true → (getNeighborsX w c).lower = w.maxX)) ∧
       (c ≠ w.minX → (getNeighborsX w c).lower = c - 1 ∧
          (getNeighborsX w c).lowerExists = true) ∧
       (c = w.maxX → (getNeighborsX w c).upperExists = w.wraparound ∧
          (w.wraparound = true → (getNeighborsX w c).upper = w.minX)) ∧
       (c ≠ w.maxX → (getNeighborsX w c).upper = c + 1 ∧
          (getNeighborsX w c).upperExists = true))) ∧
    (∀ c : Int, w.minY ≤ c → c ≤ w.maxY →
      ((c = w.minY → (getNeighborsY w c).lowerExists = w.wraparound ∧
          (w.wraparound = true → (getNeighborsY w c).lower = w.maxY)) ∧
       (c ≠ w.minY → (getNeighborsY w c).lower = c - 1 ∧
          (getNeighborsY w c).lowerExists = true) ∧
       (c = w.maxY → (getNeighborsY w c).upperExists = w.wraparound ∧
          (w.wraparound = true → (getNeighborsY w c).upper = w.minY)) ∧
       (c ≠ w.maxY → (getNeighborsY w c).upper = c + 1 ∧
          (getNeighborsY w c).upperExists = true))) ∧
    (w.wraparound = false →
      (∀ y : Int, ∀ p ∈ neighborList w w.minX y, w.minX ≤ p.1) ∧
      (neighborList w w.minX w.minY).length ≤ 3) := by
  refine ⟨?_, ?_, ?_⟩
  · intro c _ _
    unfold getNeighborsX
    refine ⟨?_, ?_, ?_, ?_⟩ <;> intro h <;> simp [h] <;> intros <;> simp_all
  · intro c _ _
    unfold getNeighborsY
    refine ⟨?_, ?_, ?_, ?_⟩ <;> intro h <;> simp [h] <;> intros <;> simp_all
  · intro hwrap
    constructor
    · intro y p hp
      rw [mem_neighborList] at hp
      rcases hp with ⟨hx, _⟩ | ⟨hx, _⟩
      · rcases hx with ⟨he, hv⟩ | ⟨he, hv⟩ <;>
          (simp only [getNeighborsX, hwrap] at he hv; split_ifs at he hv <;> simp_all)
      · omega
    · simp only [neighborList, getNeighborsX, getNeighborsY, hwrap]
      split_ifs <;> simp_all

/-- C2 witness: instantiated in the bounded 10×10 test world. -/
theorem claim2_axis_resolution_witness :
    ((0 : Int) = testWorld.minX → (getNeighborsX testWorld 0).lowerExists = testWorld.wraparound ∧
      (testWorld.wraparound = true → (getNeighborsX testWorld 0).lower = testWorld.maxX)) ∧
    (∀ y : Int, ∀ p ∈ neighborList testWorld testWorld.minX y, testWorld.minX ≤ p.1) ∧
    (neighborList testWorld testWorld.minX testWorld.minY).length ≤ 3 :=
  ⟨((claim2_axis_resolution testWorld).1 0 (by decide) (by decide)).1,
   ((claim2_axis_resolution testWorld).2.2 rfl).1,
   ((claim2_axis_resolution testWorld).2.2 rfl).2⟩

/-- C3: the sparse tick that evaluates only the explicit entries computes
the same next-generation alive set as the transition rule evaluated at
every in-world coordinate: under the halo invariant (with entries in-world
and alive entries explicit) and positive birth counts, no coordinate
outside the candidate set can come alive in one tick. -/
theorem claim3_tick_refines_naive (rules : RuleSet) (w : World) (o : Organisms)
    (hinv : HaloInvariant w o) (_hsub : o.alive ⊆ o.entries)
    (hworld : ∀ p ∈ o.entries, InWorld w p)
    (hbirth : ∀ n ∈ rules.newLifeSpawn, 1 ≤ n) :
    ∀ c : Int × Int, InWorld w c →
      (c ∈ (tickOrganisms rules w o).alive ↔ naiveStepAlive rules w o c = true) := by
  intro c hc
  by_cases hce : c ∈ o.entries
  · rw [mem_alive_tick]
    unfold naiveStepAlive tickCond
    simp [hce]
  · rw [mem_alive_tick]
    have hcount : neighborsAlive w o c.1 c.2 = 0 :=
      neighborsAlive_eq_zero_of_not_mem_entries hinv hworld hc hce
    have hdead : hasLife o c.1 c.2 = 0 := by
      apply hasLife_of_not_mem_entries
      simpa using hce
    unfold naiveStepAlive
    rw [hcount, hdead]
    constructor
    · intro h
      exact absurd h.1 hce
    · intro h
      rw [decideNext_eq_true] at h
      rcases h with ⟨h1, _⟩ | ⟨_, h2⟩
      · exact absurd h1 (by norm_num)
      · have := hbirth 0 h2
        omega

/-- C3 witness: the bounded blinker satisfies every hypothesis, and the
equivalence holds at the never-materialized corner `(9, 9)`. -/
theorem claim3_tick_refines_naive_witness :
    (9, 9) ∈ (tickOrganisms defaultRules testWorld testOrganisms).alive ↔
      naiveStepAlive defaultRules testWorld testOrganisms (9, 9) = true :=
  claim3_tick_refines_naive defaultRules testWorld testOrganisms
    (by decide) (by decide) (by decide) (by decide) (9, 9) (by decide)

/-- C4: after seeding and after every tick the halo invariant holds — every
alive coordinate's existing neighbors have an explicit entry — and
`addOrganism` both preserves the invariant and establishes it locally:
it marks exactly the added coordinate alive and enters its whole resolved
neighbor halo. -/
theorem claim4_halo_invariant :
    (∀ (w : World) (cs : List (Int × Int)), HaloInvariant w (seedOrganisms w cs)) ∧
    (∀ (rules : RuleSet) (w : World) (o : Organisms), HaloInvariant w (tickOrganisms rules w o)) ∧
    (∀ (w : World) (o : Organisms) (x y : Int), HaloInvariant w o →
      HaloInvariant w (addOrganism w o x y) ∧
      (addOrganism w o x y).alive = o.alive ∪ {(x, y)} ∧
      ∀ q ∈ neighborList w x y, q ∈ (addOrganism w o x y).entries) := by
  refine ⟨?_, ?_, ?_⟩
  · intro w cs p hp q hq
    rw [mem_alive_seedOrganisms] at hp
    rw [mem_entries_seedOrganisms]
    exact ⟨p, hp, neighborList_subset_haloList hq⟩
  · intro rules w o p hp q hq
    rw [mem_alive_tick] at hp
    rw [mem_entries_tick]
    exact ⟨p, hp.1, hp.2, neighborList_subset_haloList hq⟩
  · intro w o x y hinv
    refine ⟨?_, rfl, ?_⟩
    · intro p hp q hq
      rw [alive_addOrganism, Finset.mem_union, Finset.mem_singleton] at hp
      rw [entries_addOrganism, Finset.mem_union]
      rcases hp with hp | hp
      · exact Or.inl (hinv p hp q hq)
      · subst hp
        exact Or.inr (List.mem_toFinset.mpr (neighborList_subset_haloList hq))
    · intro q hq
      rw [entries_addOrganism, Finset.mem_union]
      exact Or.inr (List.mem_toFinset.mpr (neighborList_subset_haloList hq))

/-- C4 witness: the invariant on the seeded blinker, on its tick, and the
`addOrganism` facts at a concrete insertion. -/
theorem claim4_halo_invariant_witness :
    HaloInvariant testWorld testOrganisms ∧
    HaloInvariant testWorld (tickOrganisms defaultRules testWorld testOrganisms) ∧
    (HaloInvariant testWorld (addOrganism testWorld testOrganisms 5 5) ∧
      (addOrganism testWorld testOrganisms 5 5).alive = testOrganisms.alive ∪ {(5, 5)} ∧
      ∀ q ∈ neighborList testWorld 5 5, q ∈ (addOrganism testWorld testOrganisms 5 5).entries) :=
  ⟨claim4_halo_invariant.1 testWorld [(1, 2), (2, 2), (3, 2)],
   claim4_halo_invariant.2.1 defaultRules testWorld testOrganisms,
   claim4_halo_invariant.2.2 testWorld testOrganisms 5 5
     (claim4_halo_invariant.1 testWorld [(1, 2), (2, 2), (3, 2)])⟩

/-- C10 (implicit): on a wraparound axis with `max = min + 1`, both resolved
neighbors of either coordinate are the *same* opposite coordinate, and the
tick's neighbor count therefore counts one physically adjacent live cell
twice. -/
theorem claim10_two_cell_double_count :
    (∀ w : World, w.wraparound = true → w.maxX = w.minX + 1 →
      getNeighborsX w w.minX = ⟨w.maxX, w.maxX, true, true⟩ ∧
      getNeighborsX w w.maxX = ⟨w.minX, w.minX, true, true⟩) ∧
    twoOrganisms.alive = {(1, 5)} ∧
    neighborsAlive twoWorld twoOrganisms 0 5 = 2 := by
  refine ⟨?_, by decide, by decide⟩
  intro w hw hmx
  unfold getNeighborsX
  constructor <;>
    · simp only [AxisNeighbors.mk.injEq]
      split_ifs <;> simp_all

/-- C10 witness: the two-cell-wide wrapping world, where the single live
cell `(1, 5)` contributes 2 to the neighbor count of `(0, 5)`. -/
theorem claim10_two_cell_double_count_witness :
    getNeighborsX twoWorld twoWorld.minX = ⟨twoWorld.maxX, twoWorld.maxX, true, true⟩ ∧
    getNeighborsX twoWorld twoWorld.maxX = ⟨twoWorld.minX, twoWorld.minX, true, true⟩ :=
  claim10_two_cell_double_count.1 twoWorld rfl rfl

/-! ## Lemmas: serialization -/

lemma filterMap_ite {α β : Type} (P : α → Prop) [DecidablePred P] (f : α → β) (l : List α) :
    l.filterMap (fun a => if P a then some (f a) else none) =
      (l.filter (fun a => decide (P a))).map f := by
  induction l with
  | nil => rfl
  | cons a l ih => by_cases h : P a <;> simp [h, ih]

lemma mem_sortedFsts {s : Finset (Int × Int)} {x : Int} :
    x ∈ sortedFsts s ↔ ∃ y, (x, y) ∈ s := by
  unfold sortedFsts
  rw [Finset.mem_sort, Finset.mem_image]
  constructor
  · rintro ⟨q, hq, rfl⟩
    exact ⟨q.2, by simpa using hq⟩
  · rintro ⟨y, hy⟩
    exact ⟨(x, y), hy, rfl⟩

lemma mem_sortedSndsAt {s : Finset (Int × Int)} {x y : Int} :
    y ∈ sortedSndsAt s x ↔ (x, y) ∈ s := by
  unfold sortedSndsAt
  rw [Finset.mem_sort, Finset.mem_image]
  constructor
  · rintro ⟨q, hq, rfl⟩
    rw [Finset.mem_filter] at hq
    obtain ⟨h1, h2⟩ := hq
    have hq2 : q = (x, q.2) := by rw [Prod.ext_iff]; exact ⟨h2, rfl⟩
    rwa [hq2] at h1
  · intro h
    exact ⟨(x, y), Finset.mem_filter.mpr ⟨h, rfl⟩, rfl⟩

lemma pairwise_lt_sort (s : Finset Int) : ((s.sort (· ≤ ·)).Pairwise (· < ·)) := by
  have h1 : (s.sort (· ≤ ·)).Pairwise (· ≤ ·) := Finset.sort_sorted _ s
  have h2 : (s.sort (· ≤ ·)).Pairwise (· ≠ ·) := Finset.sort_nodup _ s
  exact (h1.and h2).imp fun h => lt_of_le_of_ne h.1 h.2

lemma pairwise_lexLt_flatMap {xs : List Int} {f : Int → List (Int × Int)}
    (hxs : xs.Pairwise (· < ·))
    (hfst : ∀ x, ∀ p ∈ f x, p.1 = x)
    (hsnd : ∀ x, (f x).Pairwise (fun p q => p.2 < q.2)) :
    (xs.flatMap f).Pairwise lexLt := by
  induction xs with
  | nil => simp
  | cons x xs ih =>
    rw [List.flatMap_cons, List.pairwise_append]
    refine ⟨?_, ih hxs.of_cons, ?_⟩
    · refine List.Pairwise.imp_of_mem ?_ (hsnd x)
      intro a b ha hb hr
      exact Or.inr ⟨by rw [hfst x a ha, hfst x b hb], hr⟩
    · intro a ha b hb
      rw [List.mem_flatMap] at hb
      obtain ⟨z, hz, hbz⟩ := hb
      left
      rw [hfst x a ha, hfst z b hbz]
      exact List.rel_of_pairwise_cons hxs hz

lemma pairwise_lexLt_emittedCoords (o : Organisms) : (emittedCoords o).Pairwise lexLt := by
  unfold emittedCoords getSortedCoordXs getSortedCoordYs sortedFsts sortedSndsAt
  apply pairwise_lexLt_flatMap
  · exact pairwise_lt_sort _
  · intro x p hp
    rw [List.mem_filterMap] at hp
    obtain ⟨y, _, hif⟩ := hp
    by_cases h : (x, y) ∈ o.alive
    · rw [if_pos h] at hif
      cases hif
      rfl
    · rw [if_neg h] at hif
      cases hif
  · intro x
    rw [filterMap_ite (fun y => (x, y) ∈ o.alive) (fun y => (x, y)), List.pairwise_map]
    exact List.Pairwise.sublist (List.filter_sublist _) (pairwise_lt_sort _)

lemma pairwise_lexLt_sortedAliveCoords (o : Organisms) :
    (sortedAliveCoords o).Pairwise lexLt := by
  unfold sortedAliveCoords sortedFsts sortedSndsAt
  apply pairwise_lexLt_flatMap
  · exact pairwise_lt_sort _
  · intro x p hp
    rw [List.mem_map] at hp
    obtain ⟨y, _, rfl⟩ := hp
    rfl
  · intro x
    rw [List.pairwise_map]
    exact pairwise_lt_sort _

lemma mem_emittedCoords {o : Organisms} {p : Int × Int} :
    p ∈ emittedCoords o ↔ p ∈ o.entries ∧ p ∈ o.alive := by
  unfold emittedCoords getSortedCoordXs getSortedCoordYs
  rw [List.mem_flatMap]
  constructor
  · rintro ⟨x, _, hp⟩
    rw [List.mem_filterMap] at hp
    obtain ⟨y, hy, hif⟩ := hp
    by_cases h : (x, y) ∈ o.alive
    · rw [if_pos h] at hif
      cases hif
      exact ⟨mem_sortedSndsAt.mp hy, h⟩
    · rw [if_neg h] at hif
      cases hif
  · rintro ⟨h1, h2⟩
    refine ⟨p.1, mem_sortedFsts.mpr ⟨p.2, by simpa using h1⟩, ?_⟩
    rw [List.mem_filterMap]
    refine ⟨p.2, mem_sortedSndsAt.mpr (by simpa using h1), ?_⟩
    rw [if_pos (by simpa using h2)]

lemma mem_sortedAliveCoords {o : Organisms} {p : Int × Int} :
    p ∈ sortedAliveCoords o ↔ p ∈ o.alive := by
  unfold sortedAliveCoords
  rw [List.mem_flatMap]
  constructor
  · rintro ⟨x, _, hp⟩
    rw [List.mem_map] at hp
    obtain ⟨y, hy, rfl⟩ := hp
    exact mem_sortedSndsAt.mp hy
  · intro h
    refine ⟨p.1, mem_sortedFsts.mpr ⟨p.2, by simpa using h⟩, ?_⟩
    rw [List.mem_map]
    exact ⟨p.2, mem_sortedSndsAt.mpr (by simpa using h), by simp⟩

lemma outputOrganisms_eq_emitted (o : Organisms) :
    outputOrganisms o = "#Life 1.06" :: (emittedCoords o).map (fun p => lineFor p.1 p.2) := by
  unfold outputOrganisms emittedCoords
  congr 1
  rw [List.map_flatMap]
  congr 1
  funext x
  rw [List.map_filterMap]
  congr 1
  funext y
  by_cases h : (x, y) ∈ o.alive <;> simp [h]

lemma nodup_of_pairwise_lexLt {l : List (Int × Int)} (hl : l.Pairwise lexLt) : l.Nodup := by
  refine hl.imp fun hr => ?_
  intro he
  subst he
  unfold lexLt at hr
  omega

lemma emittedCoords_eq_sortedAliveCoords {o : Organisms} (hsub : o.alive ⊆ o.entries) :
    emittedCoords o = sortedAliveCoords o := by
  have h1 := pairwise_lexLt_emittedCoords o
  have h2 := pairwise_lexLt_sortedAliveCoords o
  apply List.eq_of_perm_of_sorted (r := lexLt)
  · rw [List.perm_ext_iff_of_nodup (nodup_of_pairwise_lexLt h1) (nodup_of_pairwise_lexLt h2)]
    intro p
    rw [mem_emittedCoords, mem_sortedAliveCoords]
    exact ⟨fun h => h.2, fun h => ⟨hsub h, h⟩⟩
  · exact h1
  · exact h2

lemma outputOrganisms_canonical {o : Organisms} (hsub : o.alive ⊆ o.entries) :
    outputOrganisms o =
      "#Life 1.06" :: (sortedAliveCoords o).map (fun p => lineFor p.1 p.2) := by
  rw [outputOrganisms_eq_emitted, emittedCoords_eq_sortedAliveCoords hsub]

lemma addOrganism_comm (w : World) (o : Organisms) (a b : Int × Int) :
    addOrganism w (addOrganism w o a.1 a.2) b.1 b.2 =
      addOrganism w (addOrganism w o b.1 b.2) a.1 a.2 := by
  unfold addOrganism
  congr 1 <;> apply Finset.union_right_comm

lemma seedOrganisms_perm (w : World) {l₁ l₂ : List (Int × Int)} (h : l₁.Perm l₂) :
    seedOrganisms w l₁ = seedOrganisms w l₂ := by
  unfold seedOrganisms
  haveI : RightCommutative (fun (o : Organisms) (c : Int × Int) => addOrganism w o c.1 c.2) :=
    ⟨fun o a b => addOrganism_comm w o a b⟩
  exact h.foldl_eq emptyOrganisms

/-- C5: serialization writes the `#Life 1.06` header and then exactly one
line per alive coordinate, strictly sorted by ascending X then ascending Y;
tracked-dead coordinates are never emitted; and seeding from
differently-ordered insertions yields byte-identical serializations. -/
theorem claim5_serialization_sorted (o : Organisms) (hsub : o.alive ⊆ o.entries) :
    outputOrganisms o =
      "#Life 1.06" :: (sortedAliveCoords o).map (fun p => lineFor p.1 p.2) ∧
    (sortedAliveCoords o).Pairwise lexLt ∧
    (∀ p : Int × Int, p ∈ sortedAliveCoords o ↔ p ∈ o.alive) ∧
    (∀ (w : World) (l₁ l₂ : List (Int × Int)), l₁.Perm l₂ →
      outputOrganisms (seedOrganisms w l₁) = outputOrganisms (seedOrganisms w l₂)) :=
  ⟨outputOrganisms_canonical hsub, pairwise_lexLt_sortedAliveCoords o,
   fun _ => mem_sortedAliveCoords,
   fun w _ _ h => by rw [seedOrganisms_perm w h]⟩

/-- C5 witness: the blinker's serialization, and byte-identical output from
two insertion orders of the same seed. -/
theorem claim5_serialization_sorted_witness :
    (outputOrganisms testOrganisms =
      "#Life 1.06" ::
        (sortedAliveCoords testOrganisms).map (fun p => lineFor p.1 p.2)) ∧
    ((2, 2) ∈ sortedAliveCoords testOrganisms ↔ (2, 2) ∈ testOrganisms.alive) ∧
    outputOrganisms (seedOrganisms testWorld [(1, 2), (2, 2), (3, 2)]) =
      outputOrganisms (seedOrganisms testWorld [(3, 2), (1, 2), (2, 2)]) :=
  ⟨(claim5_serialization_sorted testOrganisms (by decide)).1,
   (claim5_serialization_sorted testOrganisms (by decide)).2.2.1 (2, 2),
   (claim5_serialization_sorted testOrganisms (by decide)).2.2.2 testWorld
     [(1, 2), (2, 2), (3, 2)] [(3, 2), (1, 2), (2, 2)] (by decide)⟩

/-- C6 (code bug in the configuration-file variant): with no `-nowrap` flag
and no configuration file, `processConfigurationCli`'s inverted guard
`if !flagDisableWraparound { appWraparound = false }` turns wraparound
*off*, contradicting the README's documented default; `main.go`'s own flag
default is `true`, and passing `-nowrap` leaves wraparound *on*. -/
theorem claim6_wraparound_default_inverted :
    flagWraparoundDefault = true ∧
    appWraparoundResolved false false = false ∧
    appWraparoundResolved false true = true :=
  ⟨rfl, rfl, rfl⟩

/-- C7 counterexample: the simple variant's `bootstrap` accepts the
inverted world `minX = 5 > maxX = 3` without any error, so the program does
not abort on `min ≥ max`. -/
theorem claim7_counterexample_simple_no_bounds_check :
    bootstrapSimple 10 "5:3;0:10" = .ok (5, 3, 0, 10) := by
  rfl

/-- C7 amended: only the configuration-file variant's `bootstrap` validates
the world bounds — it succeeds exactly when the tick count is positive and
`minX < maxX` and `minY < maxY`, aborting with a descriptive bootstrap
error otherwise; the simple variant never validates bounds. -/
theorem claim7_advanced_bounds_check (ticks : Nat) (minX maxX minY maxY : Int) :
    bootstrapAdvanced ticks minX maxX minY maxY = .ok () ↔
      1 ≤ ticks ∧ minX < maxX ∧ minY < maxY := by
  unfold bootstrapAdvanced
  split_ifs <;> simp_all
  omega

/-- C8 (code bug): seed-record processing is not total-by-fatal-error — an
empty line makes the Go code index `line[0]` out of range, and a record
with no comma makes it index `coordinates[1]` out of range (runtime panics,
not controlled fatal errors); a record with a bad digit, by contrast, does
take the controlled fatal path. -/
theorem claim8_record_processing_panics :
    processRecord defaultWorld "" =
      .oob "index out of range: line[0] on an empty line" ∧
    processRecord defaultWorld "(5)" =
      .oob "index out of range: coordinates[1] on a record with no comma" ∧
    processRecord defaultWorld "1,2)" = .fatal "Error reading left parenthesis" ∧
    processRecord defaultWorld "(a,2)" = .fatal "Unable to parse X-coordinate integer" := by
  refine ⟨by decide, by decide, by decide, by decide⟩

/-- C9 counterexample: serialized output cannot be fed back as seed input —
its very first line `#Life 1.06` is rejected by the left-parenthesis check —
and a run with 0 ticks is impossible because `bootstrap` rejects
`ticks < 1`. -/
theorem claim9_counterexample_output_not_reparsable :
    processRecord defaultWorld "#Life 1.06" = .fatal "Error reading left parenthesis" ∧
    bootstrapSimple 0 "0:9;0:9" = .error "Number of ticks must be greater than 0" := by
  refine ⟨by decide, by rfl⟩

/-! ## Lemmas: decimal rendering and parsing -/

lemma digitChar_mem (d : Nat) :
    digitChar d ∈ (['0', '1', '2', '3', '4', '5', '6', '7', '8', '9'] : List Char) := by
  unfold digitChar
  split_ifs <;> simp

lemma digit_props {c : Char}
    (h : c ∈ (['0', '1', '2', '3', '4', '5', '6', '7', '8', '9'] : List Char)) :
    isDigitChar c = true ∧ c.isWhitespace = false ∧ c ≠ ',' ∧ c ≠ '-' ∧ c ≠ '+' ∧
      c ≠ '(' ∧ c ≠ ')' := by
  fin_cases h <;> refine ⟨by decide, by decide, by decide, by decide, by decide, by decide,
    by decide⟩

lemma digitChar_toNat {d : Nat} (h : d < 10) : (digitChar d).toNat = 48 + d := by
  interval_cases d <;> decide

lemma mem_natDigits (n : Nat) :
    ∀ c ∈ natDigits n, c ∈ (['0', '1', '2', '3', '4', '5', '6', '7', '8', '9'] : List Char) := by
  induction n using Nat.strong_induction_on with
  | _ n ih =>
    rw [natDigits]
    split_ifs with h
    · intro c hc
      rw [List.mem_singleton] at hc
      subst hc
      exact digitChar_mem n
    · intro c hc
      rw [List.mem_append, List.mem_singleton] at hc
      rcases hc with hc | hc
      · exact ih (n / 10) (Nat.div_lt_self (by omega) (by omega)) c hc
      · subst hc
        exact digitChar_mem (n % 10)

lemma natDigits_ne_nil (n : Nat) : natDigits n ≠ [] := by
  rw [natDigits]
  split_ifs <;> simp

lemma natDigits_all_digit (n : Nat) : (natDigits n).all isDigitChar = true := by
  rw [List.all_eq_true]
  intro c hc
  exact (digit_props (mem_natDigits n c hc)).1

lemma decimalValue_append (l : List Char) (c : Char) :
    decimalValue (l ++ [c]) = 10 * decimalValue l + (c.toNat - 48) := by
  unfold decimalValue
  rw [List.foldl_append]
  rfl

lemma decimalValue_natDigits (n : Nat) : decimalValue (natDigits n) = n := by
  induction n using Nat.strong_induction_on with
  | _ n ih =>
    rw [natDigits]
    split_ifs with h
    · unfold decimalValue
      rw [List.foldl_cons, List.foldl_nil, digitChar_toNat h]
      omega
    · rw [decimalValue_append, ih (n / 10) (Nat.div_lt_self (by omega) (by omega)),
        digitChar_toNat (Nat.mod_lt n (by omega))]
      omega

lemma headD_mem {l : List Char} (h : l ≠ []) (d : Char) : l.headD d ∈ l := by
  cases l with
  | nil => exact absurd rfl h
  | cons c t => exact List.mem_cons_self c t

lemma parseGoInt_natDigits {n : Nat} (h : (n : Int) ≤ 2 ^ 63 - 1) :
    parseGoInt (natDigits n) = some (n : Int) := by
  obtain ⟨c, rest, hcr⟩ : ∃ c rest, natDigits n = c :: rest := by
    cases hh : natDigits n with
    | nil => exact absurd hh (natDigits_ne_nil n)
    | cons c rest => exact ⟨c, rest, rfl⟩
  have hprops := digit_props (mem_natDigits n c (by rw [hcr]; exact List.mem_cons_self c rest))
  have hall := natDigits_all_digit n
  have hval := decimalValue_natDigits n
  unfold parseGoInt
  rw [hcr] at hall hval ⊢
  rw [if_neg (List.cons_ne_nil c rest)]
  simp only [List.headD_cons]
  rw [if_neg (show ¬(c = '-' ∨ c = '+') from by
      rintro (he | he)
      exacts [hprops.2.2.2.1 he, hprops.2.2.2.2.1 he]),
    if_pos hall, hval,
    if_pos (show -(2 ^ 63) ≤ (n : Int) ∧ (n : Int) ≤ 2 ^ 63 - 1 from ⟨by omega, h⟩)]

lemma parseGoInt_intDigits {x : Int} (h : int64Range x) :
    parseGoInt (intDigits x) = some x := by
  obtain ⟨h1, h2⟩ := h
  unfold intDigits
  split_ifs with hx
  · unfold parseGoInt
    rw [if_neg (List.cons_ne_nil _ _)]
    simp only [List.headD_cons, List.tail_cons]
    rw [if_pos (Or.inl trivial), if_neg (natDigits_ne_nil _), if_pos (natDigits_all_digit _),
      if_pos trivial, decimalValue_natDigits,
      if_pos (show -(2 ^ 63) ≤ -(x.natAbs : Int) ∧ -(x.natAbs : Int) ≤ 2 ^ 63 - 1 from
        ⟨by omega, by omega⟩)]
    congr 1
    omega
  · rw [parseGoInt_natDigits (show ((x.toNat : Nat) : Int) ≤ 2 ^ 63 - 1 from by omega)]
    congr 1
    omega

/-! ## Lemmas: trimming and splitting -/

lemma dropWhile_ws_eq_self {l : List Char} (h : ∀ c ∈ l, c.isWhitespace = false) :
    l.dropWhile Char.isWhitespace = l := by
  cases l with
  | nil => rfl
  | cons c t =>
    rw [List.dropWhile_cons]
    simp [h c (List.mem_cons_self c t)]

lemma trimSpace_eq_self {l : List Char} (h : ∀ c ∈ l, c.isWhitespace = false) :
    trimSpace l = l := by
  unfold trimSpace
  rw [dropWhile_ws_eq_self h, dropWhile_ws_eq_self, List.reverse_reverse]
  intro c hc
  exact h c (List.mem_reverse.mp hc)

lemma splitOnChar_no_sep {sep : Char} {l : List Char} (h : ∀ c ∈ l, c ≠ sep) :
    splitOnChar sep l = [l] := by
  induction l with
  | nil => rfl
  | cons c t ih =>
    simp only [splitOnChar]
    rw [if_neg (h c (List.mem_cons_self c t)), ih (fun d hd => h d (List.mem_cons_of_mem _ hd))]

lemma splitOnChar_sep_mid {sep : Char} {l1 l2 : List Char} (h1 : ∀ c ∈ l1, c ≠ sep) :
    splitOnChar sep (l1 ++ sep :: l2) = l1 :: splitOnChar sep l2 := by
  induction l1 with
  | nil =>
    simp [splitOnChar]
  | cons c t ih =>
    rw [List.cons_append]
    simp only [splitOnChar]
    rw [if_neg (h1 c (List.mem_cons_self c t)), ih (fun d hd => h1 d (List.mem_cons_of_mem _ hd))]

lemma splitOnChar_pair {sep : Char} {l1 l2 : List Char}
    (h1 : ∀ c ∈ l1, c ≠ sep) (h2 : ∀ c ∈ l2, c ≠ sep) :
    splitOnChar sep (l1 ++ sep :: l2) = [l1, l2] := by
  rw [splitOnChar_sep_mid h1, splitOnChar_no_sep h2]

/-! ## Lemmas: the reformatted round trip -/

lemma intDigits_props (x : Int) :
    ∀ c ∈ intDigits x, c.isWhitespace = false ∧ c ≠ ',' ∧ c ≠ '(' ∧ c ≠ ')' := by
  intro c hc
  unfold intDigits at hc
  split_ifs at hc with hx
  · rw [List.mem_cons] at hc
    rcases hc with rfl | hc
    · exact ⟨by decide, by decide, by decide, by decide⟩
    · have h := digit_props (mem_natDigits _ c hc)
      exact ⟨h.2.1, h.2.2.1, h.2.2.2.2.2.1, h.2.2.2.2.2.2⟩
  · have h := digit_props (mem_natDigits _ c hc)
    exact ⟨h.2.1, h.2.2.1, h.2.2.2.2.2.1, h.2.2.2.2.2.2⟩

lemma processRecord_recordOf (w : World) (p : Int × Int)
    (hb : InWorld w p) (hr1 : int64Range p.1) (hr2 : int64Range p.2) :
    processRecord w (recordOf p) = .ok p.1 p.2 := by
  obtain ⟨hb1, hb2, hb3, hb4⟩ := hb
  have hx := intDigits_props p.1
  have hy := intDigits_props p.2
  unfold processRecord recordOf
  have hlist : (String.mk ('(' :: intDigits p.1 ++ ',' :: intDigits p.2 ++ [')'])).toList
      = '(' :: ((intDigits p.1 ++ ',' :: intDigits p.2) ++ [')']) := by simp
  rw [hlist]
  rw [if_neg (by simp)]
  rw [if_neg (by simp)]
  rw [if_neg (show ¬('(' :: ((intDigits p.1 ++ ',' :: intDigits p.2) ++ [')'])).getLastD ' ' ≠ ')'
    from by
      rw [show ('(' :: ((intDigits p.1 ++ ',' :: intDigits p.2) ++ [')']))
          = ('(' :: (intDigits p.1 ++ ',' :: intDigits p.2)) ++ [')'] from by simp,
        List.getLastD_concat]
      simp)]
  rw [show (('(' :: ((intDigits p.1 ++ ',' :: intDigits p.2) ++ [')'])).drop 1).dropLast
      = intDigits p.1 ++ ',' :: intDigits p.2 from by
    rw [List.drop_one, List.tail_cons, List.dropLast_concat]]
  rw [splitOnChar_pair (fun c hc => (hx c hc).2.1) (fun c hc => (hy c hc).2.1)]
  simp only [List.headD_cons]
  rw [trimSpace_eq_self (fun c hc => (hx c hc).1), parseGoInt_intDigits hr1]
  dsimp only
  rw [show ([intDigits p.1, intDigits p.2][1]? : Option (List Char)) = some (intDigits p.2)
    from rfl]
  dsimp only
  rw [trimSpace_eq_self (fun c hc => (hy c hc).1), parseGoInt_intDigits hr2]
  dsimp only
  rw [if_neg (by omega), if_neg (by omega), if_neg (by omega), if_neg (by omega)]

lemma sortedAliveCoords_congr {o1 o2 : Organisms} (h : o1.alive = o2.alive) :
    sortedAliveCoords o1 = sortedAliveCoords o2 := by
  unfold sortedAliveCoords sortedFsts sortedSndsAt
  rw [h]

/-- The coordinate itself is in its own halo. -/
lemma self_mem_haloList (w : World) (x y : Int) : (x, y) ∈ haloList w x y :=
  mem_haloList.mpr ⟨Or.inl rfl, Or.inl rfl⟩

lemma alive_subset_entries_seedOrganisms (w : World) (cs : List (Int × Int)) :
    (seedOrganisms w cs).alive ⊆ (seedOrganisms w cs).entries := by
  intro p hp
  rw [mem_alive_seedOrganisms] at hp
  rw [mem_entries_seedOrganisms]
  exact ⟨p, hp, by simpa using self_mem_haloList w p.1 p.2⟩

lemma seedLife_map_ok (w : World) (cs : List (Int × Int))
    (h : ∀ p ∈ cs, processRecord w (recordOf p) = .ok p.1 p.2) :
    seedLife w (cs.map recordOf) = .ok (seedOrganisms w cs) := by
  unfold seedLife seedOrganisms
  suffices haux : ∀ acc : Organisms,
      (cs.map recordOf).foldlM
        (fun o line =>
          match processRecord w line with
          | .ok x y => Except.ok (addOrganism w o x y)
          | .fatal m => Except.error m
          | .oob m => Except.error ("runtime error: " ++ m))
        acc
      = Except.ok (cs.foldl (fun o c => addOrganism w o c.1 c.2) acc) from haux emptyOrganisms
  induction cs with
  | nil => intro acc; rfl
  | cons c t ih =>
    intro acc
    rw [List.map_cons, List.foldlM_cons, h c (List.mem_cons_self c t)]
    exact ih (fun p hp => h p (List.mem_cons_of_mem _ hp)) (addOrganism w acc c.1 c.2)

/-- C9 amended: re-seeding a generation from its alive coordinates written
as `(x,y)` seed records succeeds and reproduces byte-identical
serialization (before any tick runs). -/
theorem claim9_roundtrip_reformatted (w : World) (o : Organisms)
    (hsub : o.alive ⊆ o.entries)
    (hbounds : ∀ p ∈ o.alive, InWorld w p)
    (hrange : ∀ p ∈ o.alive, int64Range p.1 ∧ int64Range p.2) :
    ∃ o2 : Organisms, seedLife w (aliveRecords o) = .ok o2 ∧
      outputOrganisms o2 = outputOrganisms o := by
  refine ⟨seedOrganisms w (sortedAliveCoords o), ?_, ?_⟩
  · unfold aliveRecords
    apply seedLife_map_ok
    intro p hp
    have hpa : p ∈ o.alive := mem_sortedAliveCoords.mp hp
    exact processRecord_recordOf w p (hbounds p hpa) (hrange p hpa).1 (hrange p hpa).2
  · have halive : (seedOrganisms w (sortedAliveCoords o)).alive = o.alive := by
      ext p
      rw [mem_alive_seedOrganisms, mem_sortedAliveCoords]
    rw [outputOrganisms_canonical (alive_subset_entries_seedOrganisms w _),
      outputOrganisms_canonical hsub, sortedAliveCoords_congr halive]

/-- C9 amended witness: the blinker round-trips through its reformatted
seed records. -/
theorem claim9_roundtrip_reformatted_witness :
    ∃ o2 : Organisms, seedLife testWorld (aliveRecords testOrganisms) = .ok o2 ∧
      outputOrganisms o2 = outputOrganisms testOrganisms :=
  claim9_roundtrip_reformatted testWorld testOrganisms (by decide) (by decide) (by decide)

end GameOfLife
